import Mathlib

/-!
Shallow embedding of the migration scripts
`apply_migration.py` (product-factory) and `apply_migration_simple.py`
(dj-booking): statement splitting, the best-effort apply loop with
idempotent-error classification, the table-existence verification, and the
startup credentials check.
-/

namespace Migration

/-- Whitespace characters stripped by Python `str.strip()` (ASCII part). -/
def pyIsSpace (c : Char) : Bool :=
  c = ' ' || c = '\t' || c = '\n' || c = '\r' || c = '\x0b' || c = '\x0c'

/-- Python `s.strip()`: remove leading and trailing whitespace. -/
def pyStrip (s : String) : String :=
  String.mk (((s.toList.dropWhile pyIsSpace).reverse.dropWhile pyIsSpace).reverse)

/-- Does the second list start with the first (the pattern)? -/
def listStartsWith : List Char → List Char → Bool
  | [], _ => true
  | _ :: _, [] => false
  | p :: ps, c :: cs => p = c && listStartsWith ps cs

/-- Python `s.startswith(pre)`. -/
def pyStartsWith (s pre : String) : Bool :=
  listStartsWith pre.toList s.toList

/-- Does the second list contain the first as a contiguous sublist? -/
def listContainsSub (pat : List Char) : List Char → Bool
  | [] => listStartsWith pat []
  | c :: cs => listStartsWith pat (c :: cs) || listContainsSub pat cs

/-- Python `pat in s` on strings (substring containment). -/
def pyContains (s pat : String) : Bool :=
  listContainsSub pat.toList s.toList

/-- Python `s.lower()` (ASCII letters; the matched error phrases are ASCII). -/
def pyLower (s : String) : String :=
  String.mk (s.toList.map Char.toLower)

/-- Python `s[:n]`: the first `n` characters of `s`. -/
def pyTake (s : String) (n : Nat) : String :=
  String.mk (s.toList.take n)

/-- Helper for `migration_sql.split(';')`: accumulate the current fragment. -/
def splitSemiAux : List Char → List Char → List (List Char)
  | [], acc => [acc.reverse]
  | c :: cs, acc =>
    if c = ';' then acc.reverse :: splitSemiAux cs [] else splitSemiAux cs (c :: acc)

/-- Python `migration_sql.split(';')`: split on every semicolon, keeping
empty fragments. -/
def pySplitSemi (s : String) : List String :=
  (splitSemiAux s.toList []).map String.mk

/-- The filter of the list comprehension in `apply_migration.py` line 36:
`if s.strip() and not s.strip().startswith('--')`. -/
def keepStatement (s : String) : Bool :=
  s != "" && !(pyStartsWith s "--")

/-- Line 36 of `apply_migration.py`:
`statements = [s.strip() for s in migration_sql.split(';') if s.strip() and not s.strip().startswith('--')]`. -/
def splitStatements (raw : String) : List String :=
  (((pySplitSemi raw).map pyStrip).filter keepStatement)

/-- Result of one remote `exec_sql` call: success, or an exception whose
string representation is `msg`. -/
inductive ExecResult where
  | ok : ExecResult
  | err (msg : String) : ExecResult
deriving DecidableEq, Repr

/-- Lines 53-56 of `apply_migration.py`: lower the error text and look for
the substrings that mark an idempotent conflict. -/
def isIdempotentError (msg : String) : Bool :=
  pyContains (pyLower msg) "already exists" || pyContains (pyLower msg) "duplicate"

/-- Per-statement outcome of the apply loop. `failed` records the statement
truncated to its first 100 characters plus the error message, exactly what
lines 57-58 of `apply_migration.py` report. -/
inductive Outcome where
  | applied : Outcome
  | skippedIdempotent : Outcome
  | failed (stmtTrunc : String) (msg : String) : Outcome
deriving DecidableEq, Repr

/-- The `except` block of the apply loop (lines 50-58 of
`apply_migration.py`): success counts as applied; a failure whose lowered
message contains "already exists" or "duplicate" is skipped silently;
any other failure is reported with the statement truncated to 100 chars. -/
def classifyResult (stmt : String) : ExecResult → Outcome
  | .ok => .applied
  | .err msg =>
    if isIdempotentError msg then .skippedIdempotent
    else .failed (pyTake stmt 100) msg

/-- One event of the apply loop: the statement submitted to the executor,
the executor's result, and the classified outcome. -/
def Event : Type := String × ExecResult × Outcome

instance : DecidableEq Event := by
  unfold Event
  infer_instance

/-- The `for` loop of `apply_migration.py` lines 41-58, over an executor
that may carry state `σ` (the remote database): skip a statement that is
empty or starts with a comment marker (the guard at lines 42-44), otherwise
submit it and classify the result; a failure never aborts the loop. -/
def applyGo {σ : Type} (exec : σ → String → σ × ExecResult) :
    σ → List String → σ × List Event
  | st, [] => (st, [])
  | st, s :: rest =>
    if s == "" || pyStartsWith s "--" then applyGo exec st rest
    else
      let p := exec st s
      let q := applyGo exec p.1 rest
      (q.1, (s, p.2, classifyResult s p.2) :: q.2)

/-- Summary counters of one apply run (the spec's `ApplySummary`). -/
structure ApplySummary where
  total : Nat
  applied : Nat
  skipped : Nat
  failedCount : Nat
  failedDetails : List (String × String)
deriving DecidableEq, Repr

/-- Reported failure details: the truncated statement and error message of
every `failed` outcome, in order. -/
def failedOf (ev : List Event) : List (String × String) :=
  ev.filterMap (fun e =>
    match e.2.2 with
    | .failed t m => some (t, m)
    | _ => none)

/-- Count the events whose outcome satisfies `p`. -/
def countOutcome (p : Outcome → Bool) (ev : List Event) : Nat :=
  (ev.filter (fun e => p e.2.2)).length

/-- Recognisers for the three outcome constructors. -/
def Outcome.isApplied : Outcome → Bool
  | .applied => true
  | _ => false

/-- True exactly on the `skippedIdempotent` outcome. -/
def Outcome.isSkipped : Outcome → Bool
  | .skippedIdempotent => true
  | _ => false

/-- True exactly on a `failed` outcome. -/
def Outcome.isFailed : Outcome → Bool
  | .failed _ _ => true
  | _ => false

/-- Aggregate the loop's events into the summary the spec describes
(`total = len(statements)` is line 38 of `apply_migration.py`). -/
def summarize (total : Nat) (ev : List Event) : ApplySummary :=
  ⟨total, countOutcome Outcome.isApplied ev, countOutcome Outcome.isSkipped ev,
    countOutcome Outcome.isFailed ev, failedOf ev⟩

/-- The applier: run the loop on the statement list and summarise. -/
def applyMigration {σ : Type} (exec : σ → String → σ × ExecResult)
    (st : σ) (stmts : List String) : σ × ApplySummary :=
  let r := applyGo exec st stmts
  (r.1, summarize stmts.length r.2)

/-- The ordered list of statements actually submitted to the executor. -/
def traceOf (ev : List Event) : List String :=
  ev.map (fun e => e.1)

/-- A list of statements as the spec's data model defines `Statement`:
non-empty and not a pure comment fragment. `splitStatements` only ever
produces such lists. -/
def allValid (stmts : List String) : Prop :=
  ∀ s ∈ stmts, s ≠ "" ∧ pyStartsWith s "--" = false

instance (stmts : List String) : Decidable (allValid stmts) := by
  unfold allValid
  infer_instance

/-- Status of one expected table (the spec's `TableStatus`). -/
inductive TableStatus where
  | Exists (count : Nat) : TableStatus
  | Missing : TableStatus
deriving DecidableEq, Repr

/-- Overall migration state (the spec's `MigrationState`). -/
inductive MigrationState where
  | Complete : MigrationState
  | Partial : MigrationState
  | NotStarted : MigrationState
deriving DecidableEq, Repr

/-- The four expected table names, line 72 of `apply_migration_simple.py`. -/
def drillTables : List String :=
  ["drill_scenarios", "drill_runs", "drill_executions", "drill_evaluations"]

/-- The body of the per-table `try` in `apply_migration_simple.py`
lines 75-81: a successful count query means the table exists with that
count, any error means it is treated as missing. -/
def statusOf (countRows : String → Except String Nat) (t : String) : TableStatus :=
  match countRows t with
  | .ok n => .Exists n
  | .error _ => .Missing

/-- The per-table check loop of `apply_migration_simple.py` lines 75-81,
recording a status for every queried table. -/
def verifyStatuses (countRows : String → Except String Nat)
    (tables : List String) : List (String × TableStatus) :=
  tables.map (fun t => (t, statusOf countRows t))

/-- `existing_tables` of `apply_migration_simple.py`: the tables whose
count query succeeded, in order. -/
def existingTables (countRows : String → Except String Nat)
    (tables : List String) : List String :=
  tables.filter (fun t =>
    match countRows t with
    | .ok _ => true
    | .error _ => false)

/-- Lines 83-89 of `apply_migration_simple.py`: `len(existing_tables) == 4`
reports the migration complete, a positive count partial, zero not started. -/
def aggregateState (countRows : String → Except String Nat)
    (tables : List String) : MigrationState :=
  if (existingTables countRows tables).length = 4 then .Complete
  else if 0 < (existingTables countRows tables).length then .Partial
  else .NotStarted

/-- Lines 75-78 of `apply_migration.py`: the four verification count
queries run in sequence inside one `try`; the first exception aborts the
remaining queries and propagates to the outer handler. -/
def verifySequential (countRows : String → Except String Nat) :
    Except String (List (String × Nat)) := do
  let a ← countRows "drill_scenarios"
  let b ← countRows "drill_runs"
  let c ← countRows "drill_executions"
  let d ← countRows "drill_evaluations"
  pure [("drill_scenarios", a), ("drill_runs", b),
        ("drill_executions", c), ("drill_evaluations", d)]

/-- How `apply_migration.py` ends: the success path after the verification
prints, or the outer `except` fallback (lines 90-113), which prints manual
instructions and returns normally. -/
inductive ScriptEnd where
  | normalSuccess : ScriptEnd
  | fallbackPath : ScriptEnd
deriving DecidableEq, Repr

/-- The outer `try`/`except` of `apply_migration.py` around the
verification queries: an exception is caught, the script takes the
fallback path, and no per-table statuses are reported. -/
def mainVerify (countRows : String → Except String Nat) :
    ScriptEnd × List (String × Nat) :=
  match verifySequential countRows with
  | .ok l => (.normalSuccess, l)
  | .error _ => (.fallbackPath, [])

/-- Python truthiness of an `os.getenv` result: `None` and the empty
string are falsy. -/
def pyTruthy : Option String → Bool
  | none => false
  | some s => s != ""

/-- Observable steps of the script startup. -/
inductive Effect where
  | remoteCall (name : String) : Effect
  | fatalError (msg : String) : Effect
deriving DecidableEq, Repr

/-- Lines 12-21 of both scripts: read the two credentials, raise
`ValueError` if either is falsy, and only then create the client and talk
to the remote service. -/
def scriptStartup (url key : Option String) : List Effect :=
  if pyTruthy url && pyTruthy key then
    [Effect.remoteCall "create_client", Effect.remoteCall "rpc exec_sql"]
  else
    [Effect.fatalError "Missing Supabase credentials in .env.local"]

/-- Modelled from the spec: the remote SQL-execution endpoint is external
to this repository. A create-style statement creates its object when
absent; re-creating an existing object fails with an "already exists"
error, the idempotent conflict of the spec's glossary. The state is the
set of objects (tables) created so far. -/
def createExec (st : List String) (stmt : String) : List String × ExecResult :=
  if stmt ∈ st then (st, .err "already exists") else (stmt :: st, .ok)

/-- Modelled from the spec: the remote row-count query succeeds with count
0 exactly on the tables present in the remote state. -/
def countRowsOf (st : List String) (t : String) : Except String Nat :=
  if t ∈ st then .ok 0 else .error "relation does not exist"

/-! Helper lemmas about the splitter. -/

theorem keepStatement_iff (s : String) :
    keepStatement s = true ↔ s ≠ "" ∧ pyStartsWith s "--" = false := by
  simp [keepStatement, bne_iff_ne, Bool.and_eq_true, Bool.not_eq_true']

theorem mem_splitStatements_valid {raw s : String}
    (h : s ∈ splitStatements raw) : s ≠ "" ∧ pyStartsWith s "--" = false := by
  have hk : keepStatement s = true := (List.mem_filter.mp h).2
  exact (keepStatement_iff s).mp hk

theorem splitStatements_allValid (raw : String) : allValid (splitStatements raw) :=
  fun _ hs => mem_splitStatements_valid hs

theorem splitSemiAux_no_semi {l acc : List Char} (hacc : ';' ∉ acc) :
    ∀ fr ∈ splitSemiAux l acc, ';' ∉ fr := by
  induction l generalizing acc with
  | nil =>
    intro fr hfr
    simp only [splitSemiAux, List.mem_singleton] at hfr
    subst hfr
    simpa using hacc
  | cons c cs ih =>
    intro fr hfr
    by_cases hc : c = ';'
    · simp only [splitSemiAux, hc, if_pos rfl] at hfr
      rcases List.mem_cons.mp hfr with h1 | h1
      · subst h1
        simpa using hacc
      · exact ih (by simp) fr h1
    · simp only [splitSemiAux, if_neg hc] at hfr
      refine ih ?_ fr hfr
      intro hmem
      rcases List.mem_cons.mp hmem with h1 | h1
      · exact hc h1.symm
      · exact hacc h1

theorem mem_pyStrip_toList {a : Char} {s : String}
    (h : a ∈ (pyStrip s).toList) : a ∈ s.toList := by
  have h1 : a ∈ ((s.toList.dropWhile pyIsSpace).reverse.dropWhile pyIsSpace).reverse := h
  have h2 : a ∈ (s.toList.dropWhile pyIsSpace).reverse.dropWhile pyIsSpace :=
    List.mem_reverse.mp h1
  have h3 : a ∈ (s.toList.dropWhile pyIsSpace).reverse :=
    (List.dropWhile_sublist _).mem h2
  have h4 : a ∈ s.toList.dropWhile pyIsSpace := List.mem_reverse.mp h3
  exact (List.dropWhile_sublist _).mem h4

theorem mem_splitStatements_strip {raw s : String} (h : s ∈ splitStatements raw) :
    ∃ fr ∈ pySplitSemi raw, s = pyStrip fr := by
  have h1 : s ∈ (pySplitSemi raw).map pyStrip := (List.mem_filter.mp h).1
  rcases List.mem_map.mp h1 with ⟨fr, hfr, hs⟩
  exact ⟨fr, hfr, hs.symm⟩

/-- Claim C3: the splitter returns the trimmed semicolon fragments, keeping
only the non-empty non-comment ones in their original relative order, and
matches the spec's three concrete examples. -/
theorem splitStatements_spec :
    (∀ raw : String, (splitStatements raw).Sublist ((pySplitSemi raw).map pyStrip)) ∧
    (∀ raw s : String, s ∈ splitStatements raw →
      s ≠ "" ∧ pyStartsWith s "--" = false ∧ ∃ fr ∈ pySplitSemi raw, s = pyStrip fr) ∧
    splitStatements "" = [] ∧
    splitStatements "-- comment only" = [] ∧
    splitStatements "A; B;;  C " = ["A", "B", "C"] := by
  refine ⟨fun raw => List.filter_sublist _, fun raw s h => ?_, by decide, by decide, by decide⟩
  rcases mem_splitStatements_valid h with ⟨h1, h2⟩
  exact ⟨h1, h2, mem_splitStatements_strip h⟩

/-- Witness for C3 at a concrete input. -/
theorem splitStatements_spec_witness :
    "A" ∈ splitStatements "A; B;;  C " ∧
    ("A" ≠ "" ∧ pyStartsWith "A" "--" = false ∧
      ∃ fr ∈ pySplitSemi "A; B;;  C ", "A" = pyStrip fr) :=
  ⟨by decide, splitStatements_spec.2.1 "A; B;;  C " "A" (by decide)⟩

/-- Claim C9: no statement returned by the splitter contains a semicolon. -/
theorem splitStatements_no_semicolon (raw s : String)
    (h : s ∈ splitStatements raw) : ';' ∉ s.toList := by
  rcases mem_splitStatements_strip h with ⟨fr, hfr, hs⟩
  rcases List.mem_map.mp hfr with ⟨l, hl, hfr2⟩
  intro hsem
  have h1 : ';' ∈ fr.toList := by
    subst hs
    exact mem_pyStrip_toList hsem
  have h2 : ';' ∈ l := by
    have : fr.toList = l := by
      subst hfr2
      rfl
    rwa [this] at h1
  exact splitSemiAux_no_semi (by simp) l hl h2

/-- Witness for C9 at a concrete input. -/
theorem splitStatements_no_semicolon_witness :
    "A" ∈ splitStatements "A;B" ∧ ';' ∉ "A".toList :=
  ⟨by decide, splitStatements_no_semicolon "A;B" "A" (by decide)⟩

/-- Claim C10: a fragment that begins with a line comment is dropped whole,
so executable SQL hidden behind a leading comment line is silently lost and
never submitted; the same statement without the comment line is kept. -/
theorem splitStatements_drops_commented_sql :
    splitStatements "-- note\nCREATE TABLE t(x int)" = [] ∧
    splitStatements "CREATE TABLE t(x int)" = ["CREATE TABLE t(x int)"] ∧
    traceOf (applyGo (fun (u : Unit) _ => (u, ExecResult.ok)) ()
      (splitStatements "-- note\nCREATE TABLE t(x int)")).2 = [] := by
  refine ⟨by decide, by decide, ?_⟩
  decide

/-! Helper lemmas about the apply loop. -/

theorem applyGo_cons_valid {σ : Type} (exec : σ → String → σ × ExecResult)
    (st : σ) {s : String} (rest : List String)
    (h1 : s ≠ "") (h2 : pyStartsWith s "--" = false) :
    applyGo exec st (s :: rest) =
      ((applyGo exec (exec st s).1 rest).1,
        (s, (exec st s).2, classifyResult s (exec st s).2) ::
          (applyGo exec (exec st s).1 rest).2) := by
  have hbeq : (s == "") = false := beq_eq_false_iff_ne.mpr h1
  simp [applyGo, hbeq, h2]

theorem traceOf_applyGo {σ : Type} (exec : σ → String → σ × ExecResult)
    (st : σ) (stmts : List String) (h : allValid stmts) :
    traceOf (applyGo exec st stmts).2 = stmts := by
  induction stmts generalizing st with
  | nil => rfl
  | cons s rest ih =>
    rcases h s (List.mem_cons_self s rest) with ⟨h1, h2⟩
    rw [applyGo_cons_valid exec st rest h1 h2]
    have hr : allValid rest := fun x hx => h x (List.mem_cons_of_mem s hx)
    simp only [traceOf, List.map_cons]
    exact congrArg (s :: ·) (ih _ hr)

theorem applyGo_event_classified {σ : Type} (exec : σ → String → σ × ExecResult)
    (st : σ) (stmts : List String) :
    ∀ e ∈ (applyGo exec st stmts).2, e.2.2 = classifyResult e.1 e.2.1 := by
  induction stmts generalizing st with
  | nil => intro e he; simp [applyGo] at he
  | cons s rest ih =>
    intro e he
    by_cases hg : (s == "" || pyStartsWith s "--") = true
    · have : applyGo exec st (s :: rest) = applyGo exec st rest := by
        simp [applyGo, hg]
      rw [this] at he
      exact ih st e he
    · simp only [applyGo, hg, Bool.false_eq_true, if_false] at he
      rcases List.mem_cons.mp he with h1 | h1
      · subst h1; rfl
      · exact ih (exec st s).1 e h1

theorem countOutcome_cons (p : Outcome → Bool) (e : Event) (rest : List Event) :
    countOutcome p (e :: rest) = (if p e.2.2 then 1 else 0) + countOutcome p rest := by
  simp only [countOutcome, List.filter_cons]
  split
  · simp [Nat.add_comm]
  · simp

theorem countOutcome_partition (ev : List Event) :
    countOutcome Outcome.isApplied ev + countOutcome Outcome.isSkipped ev +
      countOutcome Outcome.isFailed ev = ev.length := by
  induction ev with
  | nil => rfl
  | cons e rest ih =>
    rcases e with ⟨s, r, o⟩
    rw [countOutcome_cons, countOutcome_cons, countOutcome_cons, List.length_cons]
    cases o <;>
      simp [Outcome.isApplied, Outcome.isSkipped, Outcome.isFailed] <;> omega

theorem failedOf_cons_applied (s : String) (r : ExecResult) (rest : List Event) :
    failedOf ((s, r, Outcome.applied) :: rest) = failedOf rest := by
  simp [failedOf, List.filterMap_cons]

theorem failedOf_cons_skipped (s : String) (r : ExecResult) (rest : List Event) :
    failedOf ((s, r, Outcome.skippedIdempotent) :: rest) = failedOf rest := by
  simp [failedOf, List.filterMap_cons]

theorem failedOf_cons_failed (s : String) (r : ExecResult) (t m : String)
    (rest : List Event) :
    failedOf ((s, r, Outcome.failed t m) :: rest) = (t, m) :: failedOf rest := by
  simp [failedOf, List.filterMap_cons]

theorem failedOf_length (ev : List Event) :
    (failedOf ev).length = countOutcome Outcome.isFailed ev := by
  induction ev with
  | nil => rfl
  | cons e rest ih =>
    rcases e with ⟨s, r, o⟩
    rw [countOutcome_cons]
    cases o with
    | applied =>
      rw [failedOf_cons_applied]
      simp [Outcome.isFailed, ih]
    | skippedIdempotent =>
      rw [failedOf_cons_skipped]
      simp [Outcome.isFailed, ih]
    | failed t m =>
      rw [failedOf_cons_failed, List.length_cons]
      simp [Outcome.isFailed, ih]
      omega

theorem mem_failedOf {ev : List Event} {t m : String} :
    (t, m) ∈ failedOf ev ↔ ∃ s r, (s, r, Outcome.failed t m) ∈ ev := by
  induction ev with
  | nil => simp [failedOf]
  | cons e rest ih =>
    rcases e with ⟨s0, r0, o0⟩
    cases o0 with
    | applied =>
      simp only [failedOf, List.filterMap_cons] at *
      rw [ih]
      constructor
      · rintro ⟨s, r, hm⟩
        exact ⟨s, r, List.mem_cons_of_mem _ hm⟩
      · rintro ⟨s, r, hm⟩
        rcases List.mem_cons.mp hm with h1 | h1
        · exact absurd (congrArg (fun p => p.2.2) h1) (by simp)
        · exact ⟨s, r, h1⟩
    | skippedIdempotent =>
      simp only [failedOf, List.filterMap_cons] at *
      rw [ih]
      constructor
      · rintro ⟨s, r, hm⟩
        exact ⟨s, r, List.mem_cons_of_mem _ hm⟩
      · rintro ⟨s, r, hm⟩
        rcases List.mem_cons.mp hm with h1 | h1
        · exact absurd (congrArg (fun p => p.2.2) h1) (by simp)
        · exact ⟨s, r, h1⟩
    | failed t0 m0 =>
      simp only [failedOf, List.filterMap_cons, List.mem_cons] at *
      constructor
      · rintro (h1 | h1)
        · rcases Prod.mk.injEq .. ▸ h1 with ⟨ht, hm⟩
          exact ⟨s0, r0, Or.inl (by rw [Prod.mk.injEq] at h1; simp [h1.1, h1.2])⟩
        · rcases ih.mp h1 with ⟨s, r, hm⟩
          exact ⟨s, r, Or.inr hm⟩
      · rintro ⟨s, r, h1 | h1⟩
        · have := congrArg (fun p => p.2.2) h1
          simp only at this
          rcases Outcome.failed.injEq .. ▸ this with ⟨ht, hm⟩
          left
          rw [Outcome.failed.injEq] at this
          simp [this.1, this.2]
        · exact Or.inr (ih.mpr ⟨s, r, h1⟩)

/-- Claim C1: for every sequence of statements (each non-empty and not a
comment fragment, as the spec's `Statement` type requires), the apply
summary satisfies Applied + SkippedIdempotent + Failed = total, the total
is the number of statements given, and each statement contributes exactly
one loop event. -/
theorem apply_counts_partition {σ : Type} (exec : σ → String → σ × ExecResult)
    (st : σ) (stmts : List String) (h : allValid stmts) :
    (applyMigration exec st stmts).2.applied + (applyMigration exec st stmts).2.skipped +
        (applyMigration exec st stmts).2.failedCount =
      (applyMigration exec st stmts).2.total ∧
    (applyMigration exec st stmts).2.total = stmts.length ∧
    ((applyGo exec st stmts).2).length = stmts.length := by
  have hev : ((applyGo exec st stmts).2).length = stmts.length := by
    have h1 := traceOf_applyGo exec st stmts h
    have h2 : (traceOf (applyGo exec st stmts).2).length =
        ((applyGo exec st stmts).2).length := List.length_map _ _
    rw [h1] at h2
    exact h2.symm
  refine ⟨?_, rfl, hev⟩
  show countOutcome Outcome.isApplied (applyGo exec st stmts).2 +
      countOutcome Outcome.isSkipped (applyGo exec st stmts).2 +
      countOutcome Outcome.isFailed (applyGo exec st stmts).2 = stmts.length
  rw [countOutcome_partition, hev]

/-- Witness for C1 at a concrete executor that fails on one statement. -/
theorem apply_counts_partition_witness :
    allValid ["CREATE TABLE a", "CREATE TABLE b"] ∧
    ((applyMigration
        (fun (u : Unit) s => (u, if s = "CREATE TABLE a" then ExecResult.ok
          else ExecResult.err "boom")) () ["CREATE TABLE a", "CREATE TABLE b"]).2.applied +
      (applyMigration
        (fun (u : Unit) s => (u, if s = "CREATE TABLE a" then ExecResult.ok
          else ExecResult.err "boom")) () ["CREATE TABLE a", "CREATE TABLE b"]).2.skipped +
      (applyMigration
        (fun (u : Unit) s => (u, if s = "CREATE TABLE a" then ExecResult.ok
          else ExecResult.err "boom")) () ["CREATE TABLE a", "CREATE TABLE b"]).2.failedCount =
      (applyMigration
        (fun (u : Unit) s => (u, if s = "CREATE TABLE a" then ExecResult.ok
          else ExecResult.err "boom")) () ["CREATE TABLE a", "CREATE TABLE b"]).2.total) :=
  ⟨by decide,
    (apply_counts_partition
      (fun (u : Unit) s => (u, if s = "CREATE TABLE a" then ExecResult.ok
        else ExecResult.err "boom")) () ["CREATE TABLE a", "CREATE TABLE b"]
      (by decide)).1⟩

/-- Claim C2: every loop event is classified by the `except`-block rule: an
error whose lowered text contains "already exists" or "duplicate" becomes
SkippedIdempotent, any other error becomes Failed carrying the statement
truncated to 100 characters and the message; the reported failure details
are exactly the Failed outcomes (so a skipped statement is never counted as
Failed nor recorded), and every recorded detail stems from a
non-idempotent error with the truncated statement text. -/
theorem apply_failure_classification {σ : Type} (exec : σ → String → σ × ExecResult)
    (st : σ) (stmts : List String) :
    (∀ e ∈ (applyGo exec st stmts).2, e.2.2 = classifyResult e.1 e.2.1) ∧
    (∀ s msg, isIdempotentError msg = true →
      classifyResult s (ExecResult.err msg) = Outcome.skippedIdempotent) ∧
    (∀ s msg, isIdempotentError msg = false →
      classifyResult s (ExecResult.err msg) = Outcome.failed (pyTake s 100) msg) ∧
    (applyMigration exec st stmts).2.failedDetails = failedOf (applyGo exec st stmts).2 ∧
    (applyMigration exec st stmts).2.failedCount =
      (failedOf (applyGo exec st stmts).2).length ∧
    (∀ t m, (t, m) ∈ (applyMigration exec st stmts).2.failedDetails →
      ∃ s msg, (s, ExecResult.err msg, Outcome.failed t m) ∈ (applyGo exec st stmts).2 ∧
        isIdempotentError msg = false ∧ t = pyTake s 100 ∧ m = msg) := by
  refine ⟨applyGo_event_classified exec st stmts,
    fun s msg hmsg => by simp [classifyResult, hmsg],
    fun s msg hmsg => by simp [classifyResult, hmsg],
    rfl, (failedOf_length _).symm, ?_⟩
  intro t m hm
  have hm2 : (t, m) ∈ failedOf (applyGo exec st stmts).2 := hm
  rcases mem_failedOf.mp hm2 with ⟨s, r, hmem⟩
  have hclass := applyGo_event_classified exec st stmts _ hmem
  simp only at hclass
  cases r with
  | ok => simp [classifyResult] at hclass
  | err msg =>
    by_cases hid : isIdempotentError msg = true
    · simp [classifyResult, hid] at hclass
    · have hid2 : isIdempotentError msg = false := Bool.eq_false_iff.mpr hid
      simp only [classifyResult, hid2, Bool.false_eq_true, if_false] at hclass
      rw [Outcome.failed.injEq] at hclass
      exact ⟨s, msg, hmem, hid2, hclass.1, hclass.2⟩

/-- Witness for C2: a concrete run with one non-idempotent failure that is
recorded truncated. -/
theorem apply_failure_classification_witness :
    ∃ s msg,
      (s, ExecResult.err msg, Outcome.failed "CREATE TABLE x" "boom") ∈
        (applyGo (fun (u : Unit) _ => (u, ExecResult.err "boom")) ()
          ["CREATE TABLE x"]).2 ∧
      isIdempotentError msg = false ∧
      "CREATE TABLE x" = pyTake s 100 ∧ "boom" = msg :=
  (apply_failure_classification (fun (u : Unit) _ => (u, ExecResult.err "boom")) ()
    ["CREATE TABLE x"]).2.2.2.2.2 "CREATE TABLE x" "boom" (by decide)

/-- Claim C4: the trace of executor calls of an apply run over the output
of the splitter is exactly that statement list: each statement is submitted
once, in order, and no executor behaviour (including failures) prevents the
submission of a later statement. -/
theorem apply_trace_eq_split (σ : Type) (exec : σ → String → σ × ExecResult)
    (st : σ) (raw : String) :
    traceOf (applyGo exec st (splitStatements raw)).2 = splitStatements raw :=
  traceOf_applyGo exec st (splitStatements raw) (splitStatements_allValid raw)

/-! Helper lemmas about the verifier. -/

theorem existingTables_pred_iff (q : String → Except String Nat) (t : String) :
    ((match q t with
      | Except.ok _ => true
      | Except.error _ => false) = true) ↔ statusOf q t ≠ TableStatus.Missing := by
  cases hq : q t <;> simp [statusOf, hq]

theorem existingTables_length_eq_iff (q : String → Except String Nat)
    (tables : List String) :
    (existingTables q tables).length = tables.length ↔
      ∀ t ∈ tables, statusOf q t ≠ TableStatus.Missing := by
  constructor
  · intro h t ht
    have heq : existingTables q tables = tables :=
      List.Sublist.eq_of_length (List.filter_sublist _) h
    have := List.filter_eq_self.mp heq t ht
    exact (existingTables_pred_iff q t).mp this
  · intro h
    have heq : existingTables q tables = tables :=
      List.filter_eq_self.mpr (fun t ht => (existingTables_pred_iff q t).mpr (h t ht))
    rw [heq]

theorem existingTables_length_zero_iff (q : String → Except String Nat)
    (tables : List String) :
    (existingTables q tables).length = 0 ↔
      ∀ t ∈ tables, statusOf q t = TableStatus.Missing := by
  rw [List.length_eq_zero]
  constructor
  · intro h t ht
    have := List.filter_eq_nil_iff.mp h t ht
    by_contra hne
    exact this ((existingTables_pred_iff q t).mpr hne)
  · intro h
    refine List.filter_eq_nil_iff.mpr (fun t ht hp => ?_)
    exact absurd (h t ht) ((existingTables_pred_iff q t).mp hp)

theorem existingTables_pos (q : String → Except String Nat)
    {tables : List String} {t : String} (ht : t ∈ tables)
    (hs : statusOf q t ≠ TableStatus.Missing) :
    0 < (existingTables q tables).length := by
  have : t ∈ existingTables q tables :=
    List.mem_filter.mpr ⟨ht, (existingTables_pred_iff q t).mpr hs⟩
  exact List.length_pos.mpr (fun he => by simp [he] at this)

/-- Claim C5: the per-table check maps a successful count query to
Exists(count) and any error to Missing, and for the four-table set the
aggregate is Complete exactly when every table maps to Exists, NotStarted
exactly when none does, and Partial otherwise. -/
theorem verify_status_aggregate (q : String → Except String Nat)
    (tables : List String) (h4 : tables.length = 4) :
    (∀ t n, q t = Except.ok n → statusOf q t = TableStatus.Exists n) ∧
    (∀ t e, q t = Except.error e → statusOf q t = TableStatus.Missing) ∧
    verifyStatuses q tables = tables.map (fun t => (t, statusOf q t)) ∧
    (aggregateState q tables = MigrationState.Complete ↔
      ∀ t ∈ tables, statusOf q t ≠ TableStatus.Missing) ∧
    (aggregateState q tables = MigrationState.NotStarted ↔
      ∀ t ∈ tables, statusOf q t = TableStatus.Missing) ∧
    ((∃ t ∈ tables, statusOf q t ≠ TableStatus.Missing) →
      (∃ t ∈ tables, statusOf q t = TableStatus.Missing) →
      aggregateState q tables = MigrationState.Partial) := by
  refine ⟨fun t n hq => by simp [statusOf, hq],
    fun t e hq => by simp [statusOf, hq], rfl, ?_, ?_, ?_⟩
  · by_cases hc : (existingTables q tables).length = 4
    · have h1 : (existingTables q tables).length = tables.length := by omega
      simp only [aggregateState, hc, if_true]
      simp only [true_iff]
      exact (existingTables_length_eq_iff q tables).mp h1
    · constructor
      · intro h
        exfalso
        simp only [aggregateState, hc, if_false] at h
        split at h <;> simp at h
      · intro h
        exfalso
        have := (existingTables_length_eq_iff q tables).mpr h
        omega
  · by_cases hc : (existingTables q tables).length = 4
    · constructor
      · intro h
        simp only [aggregateState, hc, if_true] at h
        simp at h
      · intro h
        exfalso
        have h0 := (existingTables_length_zero_iff q tables).mpr h
        omega
    · by_cases hp : 0 < (existingTables q tables).length
      · constructor
        · intro h
          simp only [aggregateState, hc, if_false, hp, if_true] at h
          simp at h
        · intro h
          exfalso
          have h0 := (existingTables_length_zero_iff q tables).mpr h
          omega
      · have h0 : (existingTables q tables).length = 0 := by omega
        simp only [aggregateState, hc, if_false, hp, if_false]
        simp only [true_iff]
        exact (existingTables_length_zero_iff q tables).mp h0
  · rintro ⟨t1, ht1, hs1⟩ ⟨t2, ht2, hs2⟩
    have hp : 0 < (existingTables q tables).length := existingTables_pos q ht1 hs1
    have hc : (existingTables q tables).length ≠ 4 := by
      intro hc
      have h1 : (existingTables q tables).length = tables.length := by omega
      exact ((existingTables_length_eq_iff q tables).mp h1 t2 ht2) hs2
    simp [aggregateState, hc, hp]

/-- Witness for C5: one table exists with count 5, another errors, the
aggregate is Partial. -/
theorem verify_status_aggregate_witness :
    aggregateState
      (fun t => if t = "drill_runs" then Except.error "no such table"
        else Except.ok 5) drillTables = MigrationState.Partial :=
  (verify_status_aggregate
      (fun t => if t = "drill_runs" then Except.error "no such table"
        else Except.ok 5) drillTables (by decide)).2.2.2.2.2
    ⟨"drill_scenarios", by decide, by decide⟩
    ⟨"drill_runs", by decide, by decide⟩

/-- Claim C6 fails on `apply_migration.py`: its four verification queries
run inside one `try`, so an error on the first table suppresses the status
reporting of the remaining tables even though the querier would confirm
them. -/
theorem verification_error_suppresses_reporting :
    statusOf (fun t => if t = "drill_scenarios"
      then Except.error "connection reset" else Except.ok 0) "drill_runs" =
      TableStatus.Exists 0 ∧
    (mainVerify (fun t => if t = "drill_scenarios"
      then Except.error "connection reset" else Except.ok 0)).2 = [] ∧
    (mainVerify (fun t => if t = "drill_scenarios"
      then Except.error "connection reset" else Except.ok 0)).1 =
      ScriptEnd.fallbackPath := by
  refine ⟨by decide, ?_, ?_⟩ <;> decide

/-- Claim C6 amended: a verification error is never raised as a hard
failure — `apply_migration_simple.py` reports a status for every table
regardless of per-table errors, and in `apply_migration.py` any
verification error is caught by the outer handler so the script ends
normally on its fallback path (though there it skips the remaining
tables' reports). -/
theorem verification_error_never_fatal :
    (∀ q : String → Except String Nat,
      (verifyStatuses q drillTables).map Prod.fst = drillTables) ∧
    (∀ q : String → Except String Nat,
      (∃ l, verifySequential q = Except.ok l ∧
        mainVerify q = (ScriptEnd.normalSuccess, l)) ∨
      (∃ e, verifySequential q = Except.error e ∧
        mainVerify q = (ScriptEnd.fallbackPath, []))) := by
  constructor
  · intro q
    simp [verifyStatuses, List.map_map]
    rfl
  · intro q
    cases hv : verifySequential q with
    | ok l => exact Or.inl ⟨l, rfl, by simp [mainVerify, hv]⟩
    | error e => exact Or.inr ⟨e, rfl, by simp [mainVerify, hv]⟩

/-- Claim C7: a missing or empty credential makes the script raise the
fatal configuration error and perform no remote call. -/
theorem missing_credentials_abort (url key : Option String)
    (h : pyTruthy url = false ∨ pyTruthy key = false) :
    scriptStartup url key =
      [Effect.fatalError "Missing Supabase credentials in .env.local"] ∧
    ∀ n, Effect.remoteCall n ∉ scriptStartup url key := by
  have hcond : (pyTruthy url && pyTruthy key) = false := by
    rcases h with h | h <;> simp [h]
  refine ⟨by simp [scriptStartup, hcond], ?_⟩
  intro n hmem
  rw [show scriptStartup url key =
    [Effect.fatalError "Missing Supabase credentials in .env.local"] from
      by simp [scriptStartup, hcond]] at hmem
  simp at hmem

/-- Witness for C7 with the URL unset. -/
theorem missing_credentials_abort_witness :
    scriptStartup none (some "service-key") =
      [Effect.fatalError "Missing Supabase credentials in .env.local"] ∧
    ∀ n, Effect.remoteCall n ∉ scriptStartup none (some "service-key") :=
  missing_credentials_abort none (some "service-key") (Or.inl rfl)

/-! Helper lemmas for the idempotence claim. -/

theorem isIdempotentError_already_exists : isIdempotentError "already exists" = true := by
  decide

theorem applyGo_createExec_fresh (stmts : List String) :
    ∀ st : List String, allValid stmts → stmts.Nodup → (∀ s ∈ stmts, s ∉ st) →
      applyGo createExec st stmts =
        (stmts.reverse ++ st,
          stmts.map (fun s => (s, ExecResult.ok, Outcome.applied))) := by
  induction stmts with
  | nil => intro st _ _ _; rfl
  | cons s rest ih =>
    intro st h1 h2 h3
    rcases h1 s (List.mem_cons_self s rest) with ⟨hne, hcm⟩
    rw [applyGo_cons_valid createExec st rest hne hcm]
    have hexec : createExec st s = (s :: st, ExecResult.ok) := by
      simp [createExec, h3 s (List.mem_cons_self s rest)]
    have hrest : applyGo createExec (s :: st) rest =
        (rest.reverse ++ (s :: st),
          rest.map (fun x => (x, ExecResult.ok, Outcome.applied))) := by
      refine ih (s :: st) (fun x hx => h1 x (List.mem_cons_of_mem s hx))
        (List.Nodup.of_cons h2) (fun x hx => ?_)
      intro hmem
      rcases List.mem_cons.mp hmem with h | h
      · exact (List.nodup_cons.mp h2).1 (h ▸ hx)
      · exact h3 x (List.mem_cons_of_mem s hx) h
    rw [hexec, hrest]
    simp [classifyResult, List.reverse_cons, List.append_assoc]

theorem applyGo_createExec_stale (stmts : List String) :
    ∀ st : List String, allValid stmts → (∀ s ∈ stmts, s ∈ st) →
      applyGo createExec st stmts =
        (st, stmts.map (fun s =>
          (s, ExecResult.err "already exists", Outcome.skippedIdempotent))) := by
  induction stmts with
  | nil => intro st _ _; rfl
  | cons s rest ih =>
    intro st h1 h2
    rcases h1 s (List.mem_cons_self s rest) with ⟨hne, hcm⟩
    rw [applyGo_cons_valid createExec st rest hne hcm]
    have hexec : createExec st s = (st, ExecResult.err "already exists") := by
      simp [createExec, h2 s (List.mem_cons_self s rest)]
    have hrest := ih st (fun x hx => h1 x (List.mem_cons_of_mem s hx))
      (fun x hx => h2 x (List.mem_cons_of_mem s hx))
    rw [hexec, hrest]
    simp [classifyResult, isIdempotentError_already_exists]

theorem countOutcome_map_const (p : Outcome → Bool) (r : ExecResult) (o : Outcome)
    (l : List String) :
    countOutcome p (l.map (fun s => (s, r, o))) = if p o then l.length else 0 := by
  induction l with
  | nil => simp [countOutcome]
  | cons s rest ih =>
    rw [List.map_cons, countOutcome_cons, ih]
    by_cases hp : p o <;> simp [hp, Nat.add_comm]

theorem aggregate_complete_of_mem {st : List String}
    (h : ∀ t ∈ drillTables, t ∈ st) :
    aggregateState (countRowsOf st) drillTables = MigrationState.Complete := by
  have hall : ∀ t ∈ drillTables, statusOf (countRowsOf st) t ≠ TableStatus.Missing := by
    intro t ht
    simp [statusOf, countRowsOf, h t ht]
  have hlen := (existingTables_length_eq_iff (countRowsOf st) drillTables).mpr hall
  have hfour : (existingTables (countRowsOf st) drillTables).length = 4 := by
    rw [hlen]; rfl
  simp [aggregateState, hfour]

/-- Claim C8: over the spec-modelled create-style remote endpoint, applying
a duplicate-free non-empty script that creates all four drill tables and
then applying it again yields the Complete verification aggregate after
both runs, with the second run's Applied count strictly lower than the
first's (zero, the whole script counted as SkippedIdempotent). -/
theorem apply_twice_idempotent (stmts : List String)
    (h1 : allValid stmts) (h2 : stmts.Nodup) (h3 : stmts ≠ [])
    (h4 : ∀ t ∈ drillTables, t ∈ stmts) :
    aggregateState (countRowsOf (applyMigration createExec [] stmts).1) drillTables =
      MigrationState.Complete ∧
    aggregateState (countRowsOf (applyMigration createExec
      (applyMigration createExec [] stmts).1 stmts).1) drillTables =
      MigrationState.Complete ∧
    (applyMigration createExec (applyMigration createExec [] stmts).1 stmts).2.applied <
      (applyMigration createExec [] stmts).2.applied ∧
    (applyMigration createExec [] stmts).2.applied = stmts.length ∧
    (applyMigration createExec (applyMigration createExec [] stmts).1 stmts).2.applied = 0 ∧
    (applyMigration createExec (applyMigration createExec [] stmts).1 stmts).2.skipped =
      stmts.length := by
  have hrun1 := applyGo_createExec_fresh stmts [] h1 h2
    (fun s _ hmem => List.not_mem_nil s hmem)
  have hst1 : (applyMigration createExec [] stmts).1 = stmts.reverse ++ [] := by
    show (applyGo createExec [] stmts).1 = _
    rw [hrun1]
  have hmem1 : ∀ s ∈ stmts, s ∈ stmts.reverse ++ [] := by
    intro s hs
    simp [hs]
  have hrun2 := applyGo_createExec_stale stmts (stmts.reverse ++ []) h1 hmem1
  have hst2 : (applyMigration createExec (stmts.reverse ++ []) stmts).1 =
      stmts.reverse ++ [] := by
    show (applyGo createExec (stmts.reverse ++ []) stmts).1 = _
    rw [hrun2]
  have happ1 : (applyMigration createExec [] stmts).2.applied = stmts.length := by
    show countOutcome Outcome.isApplied (applyGo createExec [] stmts).2 = stmts.length
    rw [hrun1]
    simpa using countOutcome_map_const Outcome.isApplied ExecResult.ok Outcome.applied stmts
  have happ2 : (applyMigration createExec (stmts.reverse ++ []) stmts).2.applied = 0 := by
    show countOutcome Outcome.isApplied
      (applyGo createExec (stmts.reverse ++ []) stmts).2 = 0
    rw [hrun2]
    simpa using countOutcome_map_const Outcome.isApplied
      (ExecResult.err "already exists") Outcome.skippedIdempotent stmts
  have hskip2 : (applyMigration createExec (stmts.reverse ++ []) stmts).2.skipped =
      stmts.length := by
    show countOutcome Outcome.isSkipped
      (applyGo createExec (stmts.reverse ++ []) stmts).2 = stmts.length
    rw [hrun2]
    simpa using countOutcome_map_const Outcome.isSkipped
      (ExecResult.err "already exists") Outcome.skippedIdempotent stmts
  have hpos : 0 < stmts.length := List.length_pos.mpr h3
  refine ⟨?_, ?_, ?_, happ1, ?_, ?_⟩
  · rw [hst1]
    exact aggregate_complete_of_mem (fun t ht => hmem1 t (h4 t ht))
  · rw [hst1, hst2]
    exact aggregate_complete_of_mem (fun t ht => hmem1 t (h4 t ht))
  · rw [hst1, happ2, happ1]
    exact hpos
  · rw [hst1]
    exact happ2
  · rw [hst1]
    exact hskip2

/-- Witness for C8: the script that creates exactly the four drill tables. -/
theorem apply_twice_idempotent_witness :
    aggregateState (countRowsOf (applyMigration createExec [] drillTables).1)
        drillTables = MigrationState.Complete ∧
    aggregateState (countRowsOf (applyMigration createExec
        (applyMigration createExec [] drillTables).1 drillTables).1) drillTables =
      MigrationState.Complete ∧
    (applyMigration createExec
        (applyMigration createExec [] drillTables).1 drillTables).2.applied <
      (applyMigration createExec [] drillTables).2.applied ∧
    (applyMigration createExec [] drillTables).2.applied = drillTables.length ∧
    (applyMigration createExec
        (applyMigration createExec [] drillTables).1 drillTables).2.applied = 0 ∧
    (applyMigration createExec
        (applyMigration createExec [] drillTables).1 drillTables).2.skipped =
      drillTables.length :=
  apply_twice_idempotent drillTables (by decide) (by decide) (by decide) (by decide)

end Migration
